import Mathlib

/-!
Verification of the streak computation engine of a habit tracker.

The program stores habits (name, description, periodicity, creation date)
and check-off events (habit name, timestamp with second precision).  The
analytics module computes, per habit, the longest run of periodicity-adjacent
check-offs, and aggregates the maximum streak across all habits.

This file gives a shallow embedding of the relevant code:
  - timestamps are modelled by the structure DateTime (year, month, day,
    hour, minute, second), with proleptic Gregorian day counting and the
    ISO-8601 week-numbering calendar, mirroring datetime arithmetic and
    datetime.isocalendar of the source language;
  - the SQLite tables habit and tracker are modelled by lists of rows in
    the structure DBState; the queries used by the engine (existence check
    with LOWER on both sides, exact-name filtering, ORDER BY on the
    timestamp column) are modelled by list operations;
  - Analytics.calculate_streak and Analytics.longest_streak_across are
    translated step by step; a value that is either an integer or an error
    string is modelled by the inductive type PyValue.
-/

/-- Timestamp with second precision, the parsed form of a string in the
format YYYY-MM-DD HH:MM:SS. -/
structure DateTime where
  year : Nat
  month : Nat
  day : Nat
  hour : Nat
  minute : Nat
  second : Nat
deriving DecidableEq, Repr

/-- Number of days from the proleptic Gregorian date 0000-03-01 to the
given civil date (valid for year at least 1), the standard days-from-civil
computation with the year shifted so that the leap day is last. -/
def civilDays (y m d : Nat) : Nat :=
  let y2 := if m ≤ 2 then y - 1 else y
  let m2 := if m ≤ 2 then m + 9 else m - 3
  365 * y2 + y2 / 4 - y2 / 100 + y2 / 400 + (153 * m2 + 2) / 5 + d - 1

/-- Day index of the calendar-date component of a timestamp. -/
def dateOrdinal (dt : DateTime) : Nat :=
  civilDays dt.year dt.month dt.day

/-- Seconds from the epoch 0000-03-01 00:00:00 to the given timestamp. -/
def totalSeconds (dt : DateTime) : Nat :=
  86400 * dateOrdinal dt + 3600 * dt.hour + 60 * dt.minute + dt.second

/-- Difference of two timestamps in whole days, rounded toward negative
infinity: the value of the days field of a normalized timedelta. -/
def deltaDays (a b : DateTime) : Int :=
  Int.fdiv ((totalSeconds b : Int) - (totalSeconds a : Int)) 86400

/-- ISO weekday of a civil day count, 1 = Monday .. 7 = Sunday. -/
def isoWeekday (days : Nat) : Nat :=
  (days + 2) % 7 + 1

/-- Weekday index of 31 December of a year, used to count ISO weeks. -/
def yearEndWeekday (y : Nat) : Nat :=
  (y + y / 4 - y / 100 + y / 400) % 7

/-- Number of ISO weeks in a year: 53 when 31 December falls on a Thursday
or the previous 31 December on a Wednesday, else 52. -/
def weeksInISOYear (y : Nat) : Nat :=
  if yearEndWeekday y = 4 ∨ yearEndWeekday (y - 1) = 3 then 53 else 52

/-- Ordinal of the date within its year, 1 for 1 January. -/
def dayOfYear (dt : DateTime) : Nat :=
  dateOrdinal dt - civilDays dt.year 1 1 + 1

/-- ISO-8601 calendar pair (ISO year, ISO week number) of a timestamp,
the first two components of datetime.isocalendar. -/
def isocalendar (dt : DateTime) : Nat × Nat :=
  let doy := dayOfYear dt
  let wd := isoWeekday (dateOrdinal dt)
  let w := (doy + 10 - wd) / 7
  if w = 0 then (dt.year - 1, weeksInISOYear (dt.year - 1))
  else if weeksInISOYear dt.year < w then (dt.year + 1, 1)
  else (dt.year, w)

/-- Daily adjacency test of the engine: the timedelta between the two
timestamps has a days field equal to 1. -/
def dailyAdj (prev cur : DateTime) : Bool :=
  deltaDays prev cur = 1

/-- Weekly adjacency test of the engine on ISO calendar pairs: same ISO
year with the week incremented, or the week-52 to week-1 crossing into the
next ISO year. -/
def weeklyAdj (prev cur : DateTime) : Bool :=
  let cw := isocalendar cur
  let pw := isocalendar prev
  (cw.1 = pw.1 ∧ cw.2 = pw.2 + 1) ∨ (cw.1 = pw.1 + 1 ∧ pw.2 = 52 ∧ cw.2 = 1)

/-- Row of the habit table: name, description, periodicity, creation date. -/
structure HabitRow where
  name : String
  description : String
  periodicity : String
  date : String
deriving DecidableEq, Repr

/-- State of the database: the habit table and the tracker table, each in
insertion order.  A tracker row pairs the habit name with the parsed
check-off timestamp. -/
structure DBState where
  habits : List HabitRow
  tracker : List (String × DateTime)
deriving DecidableEq, Repr

/-- Value returned by calculate_streak in the source: an integer or an
error string (the source language is dynamically typed). -/
inductive PyValue where
  | int (n : Nat)
  | str (s : String)
deriving DecidableEq, Repr

/-- Single quote character, used to build the error messages of the source
without a quote character in this file. -/
def squote : String := String.singleton (Char.ofNat 39)

/-- Message returned by calculate_streak when the habit does not exist. -/
def notFoundMsg (name : String) : String :=
  "Habit " ++ squote ++ name ++ squote ++ " not found."

/-- Lower-casing of a string character by character, modelling LOWER of
the database and str.lower of the source on the ASCII names the program
uses. -/
def lowerString (s : String) : String :=
  String.mk (s.data.map Char.toLower)

/-- Removal of leading and trailing whitespace, modelling str.strip of the
source. -/
def trimString (s : String) : String :=
  String.mk (((s.data.dropWhile Char.isWhitespace).reverse.dropWhile Char.isWhitespace).reverse)

/-- Database.proof_habit: SELECT COUNT from habit WHERE LOWER(name) =
LOWER(input), compared with 0. -/
def proof_habit (db : DBState) (name : String) : Bool :=
  db.habits.any fun h => lowerString h.name = lowerString name

/-- Insert a timestamp into a list sorted by time. -/
def insertByTime (d : DateTime) : List DateTime → List DateTime
  | [] => [d]
  | x :: xs => if totalSeconds d < totalSeconds x then d :: x :: xs else x :: insertByTime d xs

/-- Sort a list of timestamps ascending by time.  On the canonical
zero-padded text form, ORDER BY on the timestamp column coincides with
chronological order. -/
def sortByTime : List DateTime → List DateTime
  | [] => []
  | x :: xs => insertByTime x (sortByTime xs)

/-- Check-off timestamps of a habit: SELECT check_of_date FROM tracker
WHERE habit_name = input ORDER BY check_of_date ASC. -/
def getCheckOffDates (db : DBState) (name : String) : List DateTime :=
  sortByTime ((db.tracker.filter fun r => r.1 = name).map fun r => r.2)

/-- Periodicity of a habit: SELECT periodicity FROM habit WHERE name =
input, first row if any. -/
def getPeriodicity (db : DBState) (name : String) : Option String :=
  (db.habits.find? fun h => h.name = name).map fun h => h.periodicity

/-- Body of the loop of calculate_streak for one consecutive pair: the
state is (longest_streak, current_streak); the daily branch extends on the
timedelta test, the weekly branch on the ISO week successor test, and an
unrecognized periodicity leaves the state unchanged. -/
def stepFor (periodicity : String) (st : Nat × Nat) (prev cur : DateTime) : Nat × Nat :=
  if periodicity = "daily" then
    if dailyAdj prev cur then (st.1, st.2 + 1)
    else (max st.1 st.2, 1)
  else if periodicity = "weekly" then
    if weeklyAdj prev cur then (st.1, st.2 + 1)
    else (max st.1 st.2, 1)
  else st

/-- The loop of calculate_streak over the consecutive pairs of the
timestamp list, carrying the previous timestamp and the state. -/
def runPairs (periodicity : String) : Nat × Nat → DateTime → List DateTime → Nat × Nat
  | st, _, [] => st
  | st, prev, cur :: rest => runPairs periodicity (stepFor periodicity st prev cur) cur rest

/-- Streak of a fetched timestamp list: 0 on the empty list, otherwise the
loop from the state (0, 1) followed by the final fold of current_streak
into longest_streak. -/
def streakOfDates (periodicity : String) : List DateTime → Nat
  | [] => 0
  | d :: rest =>
    let final := runPairs periodicity (0, 1) d rest
    max final.1 final.2

/-- Analytics.calculate_streak: when the habit exists, fetch its ordered
check-off dates, return 0 on none, otherwise fetch the periodicity and run
the loop; when the habit does not exist, return the not-found string.  The
periodicity fetch cannot fail when a same-named habit row exists; the
impossible missing row is mapped to the integer result of the loop with an
empty periodicity string, a case no theorem below relies on. -/
def calculate_streak (db : DBState) (habit_name : String) : PyValue :=
  if proof_habit db habit_name then
    let dates := getCheckOffDates db habit_name
    if dates = [] then PyValue.int 0
    else
      match getPeriodicity db habit_name with
      | some p => PyValue.int (streakOfDates p dates)
      | none => PyValue.int (streakOfDates "" dates)
  else PyValue.str (notFoundMsg habit_name)

/-- Streak of a habit as a number, defaulting to 0; used to state theorems
about the aggregator, where every queried name comes from the habit table
and the result is always an integer. -/
def streakInt (db : DBState) (name : String) : Nat :=
  match calculate_streak db name with
  | PyValue.int n => n
  | PyValue.str _ => 0

/-- Loop of Analytics.longest_streak_across: fold over the habit names
carrying the running maximum and the list of tied pairs; a higher streak
replaces the list, an equal streak is appended, a lower one is discarded.
A string result of calculate_streak would raise in the source when
compared with an integer; this is modelled by none. -/
def lsaLoop (db : DBState) : List String → Nat → List (String × Nat) → Option (List (String × Nat))
  | [], _, acc => some acc
  | name :: rest, longest, acc =>
    match calculate_streak db name with
    | PyValue.int s =>
      if longest < s then lsaLoop db rest s [(name, s)]
      else if s = longest then lsaLoop db rest longest (acc ++ [(name, s)])
      else lsaLoop db rest longest acc
    | PyValue.str _ => none

/-- Analytics.longest_streak_across: SELECT name FROM habit, then the fold
starting from maximum 0 and the empty pair list. -/
def longest_streak_across (db : DBState) : Option (List (String × Nat)) :=
  lsaLoop db (db.habits.map fun h => h.name) 0 []

/-- Message returned by add_habit on an empty normalized name. -/
def emptyNameMsg : String :=
  "Error: Habit name cannot be empty or just whitespace."

/-- Message returned by add_habit on a duplicate name. -/
def dupMsg (name : String) : String :=
  "Error: A habit with the name " ++ squote ++ name ++ squote ++ " already exists."

/-- Message returned by add_habit on success. -/
def addedMsg (name : String) : String :=
  "Habit " ++ squote ++ name ++ squote ++ " added successfully."

/-- Database.add_habit: normalize the name by trimming and lower-casing,
reject an empty result, replace a blank description by the placeholder,
reject a case-insensitive duplicate, otherwise insert the row.  Returns
the new state and the message of the source. -/
def add_habit (db : DBState) (name description periodicity date : String) : DBState × String :=
  let name := lowerString (trimString name)
  if name = "" then (db, emptyNameMsg)
  else
    let description := if trimString description = "" then "No description" else description
    if db.habits.any fun h => lowerString h.name = lowerString name then
      (db, dupMsg name)
    else
      ({ habits := db.habits ++ [⟨name, description, periodicity, date⟩],
         tracker := db.tracker }, addedMsg name)

/-- Last element of a nonempty chain written as head plus tail. -/
def lastD : DateTime → List DateTime → DateTime
  | d, [] => d
  | _, x :: xs => lastD x xs

/-- Ascending order of a timestamp list, duplicates permitted. -/
def ascendingB : List DateTime → Bool
  | [] => true
  | [_] => true
  | a :: b :: rest => totalSeconds a ≤ totalSeconds b && ascendingB (b :: rest)

/-- Modelled from the claim for comparison with the source: daily adjacency
as calendar-date succession, the calendar-date component of the current
timestamp exactly one calendar day after that of the previous one, ignoring
the time of day. -/
def claimCalendarAdj (prev cur : DateTime) : Bool :=
  dateOrdinal cur = dateOrdinal prev + 1

/-- Modelled from the claim for comparison with the source: the loop body
with the calendar-date adjacency rule of the claim. -/
def claimDailyStep (st : Nat × Nat) (prev cur : DateTime) : Nat × Nat :=
  if claimCalendarAdj prev cur then (st.1, st.2 + 1) else (max st.1 st.2, 1)

/-- Modelled from the claim for comparison with the source: the loop with
the calendar-date adjacency rule of the claim. -/
def claimDailyRun : Nat × Nat → DateTime → List DateTime → Nat × Nat
  | st, _, [] => st
  | st, prev, cur :: rest => claimDailyRun (claimDailyStep st prev cur) cur rest

/-- Modelled from the claim for comparison with the source: the daily
streak of a timestamp list under the calendar-date adjacency rule of the
claim. -/
def claimDailyStreak : List DateTime → Nat
  | [] => 0
  | d :: rest =>
    let final := claimDailyRun (0, 1) d rest
    max final.1 final.2

/-- Successor relation on ISO calendar pairs as the claim states it: same
ISO year with the week incremented, or previous week 52 and current week 1
with the ISO year incremented. -/
def isoSuccessor (prev cur : DateTime) : Prop :=
  ((isocalendar cur).1 = (isocalendar prev).1
    ∧ (isocalendar cur).2 = (isocalendar prev).2 + 1)
  ∨ ((isocalendar prev).2 = 52 ∧ (isocalendar cur).2 = 1
    ∧ (isocalendar cur).1 = (isocalendar prev).1 + 1)

instance (prev cur : DateTime) : Decidable (isoSuccessor prev cur) := by
  unfold isoSuccessor; infer_instance

/-- Pairs of the names whose streak equals a given value, each paired with
that value, in list order. -/
def tiePairs (db : DBState) (names : List String) (v : Nat) : List (String × Nat) :=
  (names.filter fun n => streakInt db n = v).map fun n => (n, v)

/-- Maximum streak over the habit table, 0 when the table is empty. -/
def maxStreakVal (db : DBState) : Nat :=
  (db.habits.map fun h => streakInt db h.name).foldl max 0

/-- Two check-offs 26 hours apart, crossing two calendar-date boundaries
is not needed: the earlier one late in the evening, the later one early in
the morning two calendar days later. -/
def c1prev : DateTime := ⟨2023, 12, 1, 23, 0, 0⟩

/-- Later check-off of the pair: two calendar days after c1prev, yet only
26 hours later. -/
def c1cur : DateTime := ⟨2023, 12, 3, 1, 0, 0⟩

/-- Database with one daily habit and the two check-offs above. -/
def dbC1 : DBState :=
  ⟨[⟨"run", "morning run", "daily", "2023-01-01 00:00:00"⟩],
   [("run", c1prev), ("run", c1cur)]⟩

/-- Database with one daily habit and two check-offs exactly 24 hours
apart on consecutive calendar days. -/
def dbC1w : DBState :=
  ⟨[⟨"walk", "evening walk", "daily", "2024-01-01 00:00:00"⟩],
   [("walk", ⟨2024, 5, 1, 8, 0, 0⟩), ("walk", ⟨2024, 5, 2, 8, 0, 0⟩)]⟩

/-- Database with one habit whose periodicity is the unrecognized string
monthly, with three check-offs on consecutive days. -/
def dbC2 : DBState :=
  ⟨[⟨"stretch", "daily stretching", "monthly", "2024-01-01 00:00:00"⟩],
   [("stretch", ⟨2024, 1, 1, 9, 0, 0⟩), ("stretch", ⟨2024, 1, 2, 9, 0, 0⟩),
    ("stretch", ⟨2024, 1, 3, 9, 0, 0⟩)]⟩

/-- Timestamp in ISO week 52 of ISO year 2023. -/
def c3prev : DateTime := ⟨2023, 12, 28, 12, 0, 0⟩

/-- Timestamp in ISO week 1 of ISO year 2024. -/
def c3cur : DateTime := ⟨2024, 1, 4, 12, 0, 0⟩

/-- Database with one weekly habit checked off in ISO weeks 49, 50 and 52
of 2024, the concrete scenario of the specification. -/
def dbC3w : DBState :=
  ⟨[⟨"car wash", "Wash the car weekly", "weekly", "2024-12-01 09:00:00"⟩],
   [("car wash", ⟨2024, 12, 2, 15, 0, 0⟩), ("car wash", ⟨2024, 12, 9, 15, 0, 0⟩),
    ("car wash", ⟨2024, 12, 23, 15, 0, 0⟩)]⟩

/-- Database with one daily habit and no check-offs. -/
def dbC5a : DBState :=
  ⟨[⟨"reading", "read a book", "daily", "2024-01-01 00:00:00"⟩], []⟩

/-- Database with one weekly habit and exactly one check-off. -/
def dbC5b : DBState :=
  ⟨[⟨"swimming", "swim weekly", "weekly", "2024-01-01 00:00:00"⟩],
   [("swimming", ⟨2024, 3, 5, 18, 0, 0⟩)]⟩

/-- Tracker row of the December scenario: the workout habit checked off at
07:00 on the given day of December 2024. -/
def decRow (d : Nat) : String × DateTime := ("workout", ⟨2024, 12, d, 7, 0, 0⟩)

/-- Database of the December scenario: a daily habit checked off every day
of December 2024 except the 16th and the 19th. -/
def dbC7 : DBState :=
  ⟨[⟨"workout", "Exercise daily", "daily", "2024-12-01 09:00:00"⟩],
   [decRow 1, decRow 2, decRow 3, decRow 4, decRow 5, decRow 6, decRow 7, decRow 8,
    decRow 9, decRow 10, decRow 11, decRow 12, decRow 13, decRow 14, decRow 15,
    decRow 17, decRow 18,
    decRow 20, decRow 21, decRow 22, decRow 23, decRow 24, decRow 25, decRow 26,
    decRow 27, decRow 28, decRow 29, decRow 30, decRow 31]⟩

/-- Database with two daily habits each checked off on the first three
days of December 2024, the tie scenario of the test suite. -/
def dbC4 : DBState :=
  ⟨[⟨"habit1", "description1", "daily", "2024-12-01 00:00:00"⟩,
    ⟨"habit2", "description2", "daily", "2024-12-01 00:00:00"⟩],
   [("habit1", ⟨2024, 12, 1, 0, 0, 0⟩), ("habit2", ⟨2024, 12, 1, 0, 0, 0⟩),
    ("habit1", ⟨2024, 12, 2, 0, 0, 0⟩), ("habit2", ⟨2024, 12, 2, 0, 0, 0⟩),
    ("habit1", ⟨2024, 12, 3, 0, 0, 0⟩), ("habit2", ⟨2024, 12, 3, 0, 0, 0⟩)]⟩

lemma insertByTime_length (d : DateTime) (l : List DateTime) :
    (insertByTime d l).length = l.length + 1 := by
  induction l with
  | nil => rfl
  | cons x xs ih =>
    simp only [insertByTime]
    split <;> simp [ih]

lemma sortByTime_length (l : List DateTime) : (sortByTime l).length = l.length := by
  induction l with
  | nil => rfl
  | cons x xs ih => simp [sortByTime, insertByTime_length, ih]

lemma stepFor_cases (p : String) (st : Nat × Nat) (prev cur : DateTime) :
    stepFor p st prev cur = (st.1, st.2 + 1)
    ∨ stepFor p st prev cur = (max st.1 st.2, 1)
    ∨ stepFor p st prev cur = st := by
  unfold stepFor
  split_ifs <;> simp

lemma runPairs_snd_pos (p : String) (rest : List DateTime) :
    ∀ st : Nat × Nat, ∀ prev : DateTime, 1 ≤ st.2 → 1 ≤ (runPairs p st prev rest).2 := by
  induction rest with
  | nil => intro st prev h; exact h
  | cons x xs ih =>
    intro st prev h
    show 1 ≤ (runPairs p (stepFor p st prev x) x xs).2
    refine ih _ x ?_
    rcases stepFor_cases p st prev x with hc | hc | hc <;> rw [hc] <;> omega

lemma runPairs_le (p : String) (rest : List DateTime) :
    ∀ st : Nat × Nat, ∀ prev : DateTime,
      (runPairs p st prev rest).1 ≤ max st.1 (st.2 + rest.length)
      ∧ (runPairs p st prev rest).2 ≤ st.2 + rest.length := by
  induction rest with
  | nil =>
    intro st prev
    exact ⟨le_max_left _ _, Nat.le_add_right _ _⟩
  | cons x xs ih =>
    intro st prev
    have hrun : runPairs p st prev (x :: xs) = runPairs p (stepFor p st prev x) x xs := rfl
    rw [hrun]
    rcases stepFor_cases p st prev x with hc | hc | hc <;> rw [hc]
    · obtain ⟨h1, h2⟩ := ih (st.1, st.2 + 1) x
      constructor <;> simp only [List.length_cons] <;> omega
    · obtain ⟨h1, h2⟩ := ih (max st.1 st.2, 1) x
      constructor <;> simp only [List.length_cons] <;> omega
    · obtain ⟨h1, h2⟩ := ih st x
      constructor <;> simp only [List.length_cons] <;> omega

lemma runPairs_unknown (p : String) (hd : p ≠ "daily") (hw : p ≠ "weekly")
    (rest : List DateTime) : ∀ st prev, runPairs p st prev rest = st := by
  induction rest with
  | nil => intro st prev; rfl
  | cons x xs ih =>
    intro st prev
    show runPairs p (stepFor p st prev x) x xs = st
    rw [show stepFor p st prev x = st by unfold stepFor; rw [if_neg hd, if_neg hw]]
    exact ih st x

lemma runPairs_append (p : String) (ds : List DateTime) (d : DateTime) :
    ∀ st prev, runPairs p st prev (ds ++ [d]) = stepFor p (runPairs p st prev ds) (lastD prev ds) d := by
  induction ds with
  | nil => intro st prev; rfl
  | cons x xs ih =>
    intro st prev
    show runPairs p (stepFor p st prev x) x (xs ++ [d]) = _
    rw [ih (stepFor p st prev x) x]
    rfl

lemma weeklyAdj_iff (prev cur : DateTime) :
    weeklyAdj prev cur = true ↔ isoSuccessor prev cur := by
  simp only [weeklyAdj, isoSuccessor, decide_eq_true_eq]
  constructor
  · intro h
    rcases h with ⟨h1, h2⟩ | ⟨h1, h2, h3⟩
    · exact Or.inl ⟨h1, h2⟩
    · exact Or.inr ⟨h2, h3, h1⟩
  · intro h
    rcases h with ⟨h1, h2⟩ | ⟨h1, h2, h3⟩
    · exact Or.inl ⟨h1, h2⟩
    · exact Or.inr ⟨h3, h1, h2⟩

lemma calculate_streak_eq (db : DBState) (name p : String)
    (hex : proof_habit db name = true) (hper : getPeriodicity db name = some p) :
    calculate_streak db name = PyValue.int (streakOfDates p (getCheckOffDates db name)) := by
  by_cases hd : getCheckOffDates db name = []
  · simp [calculate_streak, hex, hd, streakOfDates]
  · simp [calculate_streak, hex, hd, hper]

lemma streakOfDates_cons (p : String) (d : DateTime) (rest : List DateTime) :
    streakOfDates p (d :: rest)
      = max (runPairs p (0, 1) d rest).1 (runPairs p (0, 1) d rest).2 := rfl

lemma streakOfDates_le_length (p : String) (ds : List DateTime) :
    streakOfDates p ds ≤ ds.length := by
  cases ds with
  | nil => exact Nat.le_refl 0
  | cons d rest =>
    rw [streakOfDates_cons]
    obtain ⟨h1, h2⟩ := runPairs_le p rest (0, 1) d
    simp only [List.length_cons]
    omega

lemma streakOfDates_pos (p : String) (d : DateTime) (rest : List DateTime) :
    1 ≤ streakOfDates p (d :: rest) := by
  rw [streakOfDates_cons]
  have := runPairs_snd_pos p rest (0, 1) d (Nat.le_refl 1)
  omega

lemma proof_habit_of_mem (db : DBState) (hr : HabitRow) (hmem : hr ∈ db.habits) :
    proof_habit db hr.name = true := by
  simp only [proof_habit, List.any_eq_true]
  exact ⟨hr, hmem, by simp⟩

lemma calc_streak_int (db : DBState) (name : String)
    (hex : proof_habit db name = true) :
    calculate_streak db name = PyValue.int (streakInt db name) := by
  by_cases hd : getCheckOffDates db name = []
  · have h1 : calculate_streak db name = PyValue.int 0 := by
      simp [calculate_streak, hex, hd]
    rw [h1]
    unfold streakInt
    rw [h1]
  · cases hp : getPeriodicity db name with
    | none =>
      have h1 : calculate_streak db name
          = PyValue.int (streakOfDates "" (getCheckOffDates db name)) := by
        simp [calculate_streak, hex, hd, hp]
      rw [h1]
      unfold streakInt
      rw [h1]
    | some p =>
      have h1 := calculate_streak_eq db name p hex hp
      rw [h1]
      unfold streakInt
      rw [h1]

lemma tiePairs_append_one (db : DBState) (pre : List String) (n : String) (v : Nat) :
    tiePairs db (pre ++ [n]) v =
      tiePairs db pre v ++ (if streakInt db n = v then [(n, v)] else []) := by
  by_cases h : streakInt db n = v
  · simp [tiePairs, List.filter_append, h]
  · simp [tiePairs, List.filter_append, h]

lemma lsaLoop_cons_int (db : DBState) (n : String) (rest : List String) (L : Nat)
    (acc : List (String × Nat)) (s : Nat)
    (hc : calculate_streak db n = PyValue.int s) :
    lsaLoop db (n :: rest) L acc =
      if L < s then lsaLoop db rest s [(n, s)]
      else if s = L then lsaLoop db rest L (acc ++ [(n, s)])
      else lsaLoop db rest L acc := by
  simp only [lsaLoop, hc]

lemma lsaLoop_tiePairs (db : DBState) :
    ∀ (ns : List String) (L : Nat) (pre : List String),
      (∀ n ∈ ns, proof_habit db n = true) →
      (∀ m ∈ pre, streakInt db m ≤ L) →
      lsaLoop db ns L (tiePairs db pre L) =
        some (tiePairs db (pre ++ ns)
          (ns.foldl (fun m n => max m (streakInt db n)) L)) := by
  intro ns
  induction ns with
  | nil =>
    intro L pre _ _
    simp [lsaLoop]
  | cons n rest ih =>
    intro L pre hint hpre
    have hc : calculate_streak db n = PyValue.int (streakInt db n) :=
      calc_streak_int db n (hint n (by simp))
    have hrest : ∀ m ∈ rest, proof_habit db m = true := fun m hm => hint m (by simp [hm])
    rw [lsaLoop_cons_int db n rest L (tiePairs db pre L) (streakInt db n) hc]
    by_cases h1 : L < streakInt db n
    · rw [if_pos h1]
      have hpe : tiePairs db pre (streakInt db n) = [] := by
        simp only [tiePairs, List.map_eq_nil_iff, List.filter_eq_nil_iff]
        intro m hm
        simp only [decide_eq_true_eq]
        exact fun he => absurd (he ▸ hpre m hm) (Nat.not_le_of_lt h1)
      have hone : [(n, streakInt db n)] = tiePairs db (pre ++ [n]) (streakInt db n) := by
        rw [tiePairs_append_one, hpe, if_pos rfl]
        rfl
      rw [hone]
      rw [ih (streakInt db n) (pre ++ [n]) hrest ?side]
      case side =>
        intro m hm
        rcases List.mem_append.mp hm with h | h
        · exact Nat.le_of_lt (Nat.lt_of_le_of_lt (hpre m h) h1)
        · rw [List.mem_singleton.mp h]
      rw [List.foldl_cons]
      rw [show max L (streakInt db n) = streakInt db n from Nat.max_eq_right (Nat.le_of_lt h1)]
      rw [List.append_assoc]
      rfl
    · rw [if_neg h1]
      by_cases h2 : streakInt db n = L
      · rw [if_pos h2]
        have hone : tiePairs db pre L ++ [(n, streakInt db n)] = tiePairs db (pre ++ [n]) L := by
          rw [tiePairs_append_one, if_pos h2, h2]
        rw [hone]
        rw [ih L (pre ++ [n]) hrest ?side2]
        case side2 =>
          intro m hm
          rcases List.mem_append.mp hm with h | h
          · exact hpre m h
          · rw [List.mem_singleton.mp h, h2]
        rw [List.foldl_cons]
        rw [show max L (streakInt db n) = L from Nat.max_eq_left (Nat.le_of_eq h2)]
        rw [List.append_assoc]
        rfl
      · rw [if_neg h2]
        have hs : streakInt db n < L :=
          Nat.lt_of_le_of_ne (Nat.le_of_not_lt h1) h2
        have hone : tiePairs db pre L = tiePairs db (pre ++ [n]) L := by
          rw [tiePairs_append_one, if_neg h2]
          simp
        rw [hone]
        rw [ih L (pre ++ [n]) hrest ?side3]
        case side3 =>
          intro m hm
          rcases List.mem_append.mp hm with h | h
          · exact hpre m h
          · rw [List.mem_singleton.mp h]
            exact Nat.le_of_lt hs
        rw [List.foldl_cons]
        rw [show max L (streakInt db n) = L from Nat.max_eq_left (Nat.le_of_lt hs)]
        rw [List.append_assoc]
        rfl

lemma maxStreakVal_eq (db : DBState) :
    maxStreakVal db =
      (db.habits.map fun h => h.name).foldl (fun m n => max m (streakInt db n)) 0 := by
  unfold maxStreakVal
  rw [show (db.habits.map fun h => streakInt db h.name)
      = ((db.habits.map fun h => h.name).map fun n => streakInt db n) by
    rw [List.map_map]; rfl]
  rw [List.foldl_map]

lemma foldl_max_zero (l : List Nat) (hl : ∀ x ∈ l, x = 0) : l.foldl max 0 = 0 := by
  induction l with
  | nil => rfl
  | cons x xs ih =>
    rw [List.foldl_cons]
    rw [hl x (by simp), Nat.max_self]
    exact ih fun y hy => hl y (by simp [hy])

/-- C1: the claim predicts a streak of 1 for two ascending check-offs
whose calendar dates are two days apart, but the engine compares the
timedelta in whole days and extends the run, returning 2: the time of day
is not ignored by the source. -/
theorem spec2proof_C1_counterexample :
    totalSeconds c1prev < totalSeconds c1cur
    ∧ getCheckOffDates dbC1 "run" = [c1prev, c1cur]
    ∧ dateOrdinal c1cur = dateOrdinal c1prev + 2
    ∧ claimDailyStreak [c1prev, c1cur] = 1
    ∧ calculate_streak dbC1 "run" = PyValue.int 2 := by
  decide

/-- C1 (amended): for every existing habit with daily periodicity, the
engine computes the streak of the fetched ascending timestamp list, and a
consecutive pair extends the current run exactly when the difference of
the two timestamps, rounded toward negative infinity to whole days, equals
1; any other difference folds the current run into the longest and resets
the current run to 1. -/
theorem spec2proof_C1 (db : DBState) (name : String)
    (hex : proof_habit db name = true)
    (hper : getPeriodicity db name = some "daily") :
    calculate_streak db name = PyValue.int (streakOfDates "daily" (getCheckOffDates db name))
    ∧ (∀ st : Nat × Nat, ∀ prev cur : DateTime,
        (deltaDays prev cur = 1 → stepFor "daily" st prev cur = (st.1, st.2 + 1))
        ∧ (deltaDays prev cur ≠ 1 → stepFor "daily" st prev cur = (max st.1 st.2, 1))) := by
  refine ⟨calculate_streak_eq db name "daily" hex hper, ?_⟩
  intro st prev cur
  constructor
  · intro h
    have hb : dailyAdj prev cur = true := by simp [dailyAdj, h]
    simp [stepFor, hb]
  · intro h
    have hb : dailyAdj prev cur = false := by simp [dailyAdj, h]
    simp [stepFor, hb]

/-- C1 witness: concrete daily habit with two check-offs 24 hours apart,
streak 2. -/
theorem spec2proof_C1_witness :
    calculate_streak dbC1w "walk" = PyValue.int (streakOfDates "daily" (getCheckOffDates dbC1w "walk"))
    ∧ calculate_streak dbC1w "walk" = PyValue.int 2 :=
  ⟨(spec2proof_C1 dbC1w "walk" (by decide) (by decide)).1, by decide⟩

/-- C2: the claim predicts a distinct refusal for an existing habit whose
periodicity is neither daily nor weekly, but the engine returns the plain
integer 1, indistinguishable from a genuine streak of 1. -/
theorem spec2proof_C2_counterexample :
    proof_habit dbC2 "stretch" = true
    ∧ getPeriodicity dbC2 "stretch" = some "monthly"
    ∧ calculate_streak dbC2 "stretch" = PyValue.int 1 := by
  decide

/-- C2 (amended): for every existing habit whose periodicity is neither
daily nor weekly, the engine does not refuse: both adjacency branches are
skipped, so the loop leaves its state unchanged and the result is the
integer 0 with no check-offs and the integer 1 otherwise, regardless of
the timestamps. -/
theorem spec2proof_C2 (db : DBState) (name p : String)
    (hex : proof_habit db name = true)
    (hper : getPeriodicity db name = some p)
    (hd : p ≠ "daily") (hw : p ≠ "weekly") :
    calculate_streak db name =
      PyValue.int (if getCheckOffDates db name = [] then 0 else 1) := by
  rw [calculate_streak_eq db name p hex hper]
  by_cases hdd : getCheckOffDates db name = []
  · rw [hdd, if_pos rfl]
    rfl
  · rw [if_neg hdd]
    obtain ⟨d, rest, hcons⟩ : ∃ d rest, getCheckOffDates db name = d :: rest := by
      cases hds : getCheckOffDates db name with
      | nil => exact absurd hds hdd
      | cons d rest => exact ⟨d, rest, rfl⟩
    rw [hcons]
    show PyValue.int (max (runPairs p (0, 1) d rest).1 (runPairs p (0, 1) d rest).2) = _
    rw [runPairs_unknown p hd hw rest (0, 1) d]
    rfl

/-- C2 witness: the amended statement evaluated on the concrete database
with the monthly habit. -/
theorem spec2proof_C2_witness :
    calculate_streak dbC2 "stretch" =
      PyValue.int (if getCheckOffDates dbC2 "stretch" = [] then 0 else 1) :=
  spec2proof_C2 dbC2 "stretch" "monthly" (by decide) (by decide) (by decide) (by decide)

/-- C3: for every existing habit with weekly periodicity the engine
computes the streak of the fetched ascending timestamp list, a consecutive
pair extends the current run exactly when the ISO calendar pair of the
current timestamp is the successor of the previous one (same ISO year with
the week incremented, or week 52 to week 1 with the ISO year incremented),
any other relationship folds the run and resets it to 1, and a concrete
52-to-1 boundary crossing counts as adjacent. -/
theorem spec2proof_C3 (db : DBState) (name : String)
    (hex : proof_habit db name = true)
    (hper : getPeriodicity db name = some "weekly") :
    calculate_streak db name = PyValue.int (streakOfDates "weekly" (getCheckOffDates db name))
    ∧ (∀ st : Nat × Nat, ∀ prev cur : DateTime,
        (isoSuccessor prev cur → stepFor "weekly" st prev cur = (st.1, st.2 + 1))
        ∧ (¬ isoSuccessor prev cur → stepFor "weekly" st prev cur = (max st.1 st.2, 1)))
    ∧ isoSuccessor c3prev c3cur := by
  refine ⟨calculate_streak_eq db name "weekly" hex hper, ?_, by decide⟩
  intro st prev cur
  constructor
  · intro h
    have hb : weeklyAdj prev cur = true := (weeklyAdj_iff prev cur).mpr h
    simp [stepFor, hb]
  · intro h
    have hb : weeklyAdj prev cur = false := by
      rw [Bool.eq_false_iff]
      exact fun hc => h ((weeklyAdj_iff prev cur).mp hc)
    simp [stepFor, hb]

/-- C3 witness: the concrete weekly scenario of the specification, ISO
weeks 49, 50, 52 of 2024, with streak 2. -/
theorem spec2proof_C3_witness :
    calculate_streak dbC3w "car wash" = PyValue.int (streakOfDates "weekly" (getCheckOffDates dbC3w "car wash"))
    ∧ calculate_streak dbC3w "car wash" = PyValue.int 2
    ∧ isoSuccessor c3prev c3cur :=
  ⟨(spec2proof_C3 dbC3w "car wash" (by decide) (by decide)).1, by decide,
   (spec2proof_C3 dbC3w "car wash" (by decide) (by decide)).2.2⟩

/-- C5: for every existing habit, the streak is 0 with no check-offs and 1
with exactly one check-off, for daily as well as weekly periodicity. -/
theorem spec2proof_C5 (db : DBState) (name : String)
    (hex : proof_habit db name = true) :
    (getCheckOffDates db name = [] → calculate_streak db name = PyValue.int 0)
    ∧ (∀ d : DateTime, ∀ p : String, getCheckOffDates db name = [d] →
        getPeriodicity db name = some p → (p = "daily" ∨ p = "weekly") →
        calculate_streak db name = PyValue.int 1) := by
  constructor
  · intro hd
    simp [calculate_streak, hex, hd]
  · intro d p hd hper _
    rw [calculate_streak_eq db name p hex hper, hd]
    rfl

/-- C5 witness: a daily habit with no check-offs has streak 0 and a weekly
habit with one check-off has streak 1. -/
theorem spec2proof_C5_witness :
    calculate_streak dbC5a "reading" = PyValue.int 0
    ∧ calculate_streak dbC5b "swimming" = PyValue.int 1 :=
  ⟨(spec2proof_C5 dbC5a "reading" (by decide)).1 (by decide),
   (spec2proof_C5 dbC5b "swimming" (by decide)).2 ⟨2024, 3, 5, 18, 0, 0⟩ "weekly"
     (by decide) (by decide) (Or.inr rfl)⟩

/-- C6: when the requested habit does not exist, the engine returns the
distinct not-found string, never an integer, so streak 0 of an existing
habit is distinguishable from a missing habit. -/
theorem spec2proof_C6 (db : DBState) (name : String)
    (hnf : proof_habit db name = false) :
    calculate_streak db name = PyValue.str (notFoundMsg name)
    ∧ ∀ k : Nat, calculate_streak db name ≠ PyValue.int k := by
  have h : calculate_streak db name = PyValue.str (notFoundMsg name) := by
    simp [calculate_streak, hnf]
  refine ⟨h, fun k hk => ?_⟩
  rw [h] at hk
  exact PyValue.noConfusion hk

/-- C6 witness: querying the empty database returns the not-found string
and differs from the integer 0. -/
theorem spec2proof_C6_witness :
    calculate_streak ⟨[], []⟩ "gym" = PyValue.str (notFoundMsg "gym")
    ∧ calculate_streak ⟨[], []⟩ "gym" ≠ PyValue.int 0 :=
  ⟨(spec2proof_C6 ⟨[], []⟩ "gym" (by decide)).1,
   (spec2proof_C6 ⟨[], []⟩ "gym" (by decide)).2 0⟩

/-- C7: the December scenario: a daily habit checked off every day of
December 2024 except the 16th and the 19th has longest streak 15, and the
three runs have lengths 15, 2 and 12 as the claim derives them. -/
theorem spec2proof_C7 :
    calculate_streak dbC7 "workout" = PyValue.int 15
    ∧ streakOfDates "daily"
        [⟨2024, 12, 1, 7, 0, 0⟩, ⟨2024, 12, 2, 7, 0, 0⟩, ⟨2024, 12, 3, 7, 0, 0⟩,
         ⟨2024, 12, 4, 7, 0, 0⟩, ⟨2024, 12, 5, 7, 0, 0⟩, ⟨2024, 12, 6, 7, 0, 0⟩,
         ⟨2024, 12, 7, 7, 0, 0⟩, ⟨2024, 12, 8, 7, 0, 0⟩, ⟨2024, 12, 9, 7, 0, 0⟩,
         ⟨2024, 12, 10, 7, 0, 0⟩, ⟨2024, 12, 11, 7, 0, 0⟩, ⟨2024, 12, 12, 7, 0, 0⟩,
         ⟨2024, 12, 13, 7, 0, 0⟩, ⟨2024, 12, 14, 7, 0, 0⟩, ⟨2024, 12, 15, 7, 0, 0⟩] = 15
    ∧ streakOfDates "daily" [⟨2024, 12, 17, 7, 0, 0⟩, ⟨2024, 12, 18, 7, 0, 0⟩] = 2
    ∧ streakOfDates "daily"
        [⟨2024, 12, 20, 7, 0, 0⟩, ⟨2024, 12, 21, 7, 0, 0⟩, ⟨2024, 12, 22, 7, 0, 0⟩,
         ⟨2024, 12, 23, 7, 0, 0⟩, ⟨2024, 12, 24, 7, 0, 0⟩, ⟨2024, 12, 25, 7, 0, 0⟩,
         ⟨2024, 12, 26, 7, 0, 0⟩, ⟨2024, 12, 27, 7, 0, 0⟩, ⟨2024, 12, 28, 7, 0, 0⟩,
         ⟨2024, 12, 29, 7, 0, 0⟩, ⟨2024, 12, 30, 7, 0, 0⟩, ⟨2024, 12, 31, 7, 0, 0⟩] = 12 := by
  decide

/-- C10: appending one timestamp at the end of an ascending event list
never decreases the computed streak, for a recognized periodicity. -/
theorem spec2proof_C10 (p : String) (ds : List DateTime) (d : DateTime)
    (hrec : p = "daily" ∨ p = "weekly")
    (hasc : ascendingB (ds ++ [d]) = true) :
    streakOfDates p ds ≤ streakOfDates p (ds ++ [d]) := by
  cases ds with
  | nil =>
    show streakOfDates p [] ≤ streakOfDates p [d]
    show 0 ≤ max (0 : Nat) 1
    omega
  | cons d0 rest =>
    have happ : (d0 :: rest) ++ [d] = d0 :: (rest ++ [d]) := rfl
    rw [happ]
    have h1 : streakOfDates p (d0 :: rest)
        = max (runPairs p (0, 1) d0 rest).1 (runPairs p (0, 1) d0 rest).2 := rfl
    have h2 : streakOfDates p (d0 :: (rest ++ [d]))
        = max (runPairs p (0, 1) d0 (rest ++ [d])).1 (runPairs p (0, 1) d0 (rest ++ [d])).2 := rfl
    rw [h1, h2, runPairs_append p rest d (0, 1) d0]
    have hpos : 1 ≤ (runPairs p (0, 1) d0 rest).2 :=
      runPairs_snd_pos p rest (0, 1) d0 (le_refl 1)
    rcases stepFor_cases p (runPairs p (0, 1) d0 rest) (lastD d0 rest) d with hc | hc | hc <;>
      rw [hc] <;> omega

/-- C10 witness: appending a third consecutive day to a two-day ascending
list does not decrease the daily streak. -/
theorem spec2proof_C10_witness :
    streakOfDates "daily" [⟨2024, 5, 1, 8, 0, 0⟩, ⟨2024, 5, 2, 8, 0, 0⟩] ≤
      streakOfDates "daily"
        [⟨2024, 5, 1, 8, 0, 0⟩, ⟨2024, 5, 2, 8, 0, 0⟩, ⟨2024, 5, 3, 8, 0, 0⟩] :=
  spec2proof_C10 "daily" [⟨2024, 5, 1, 8, 0, 0⟩, ⟨2024, 5, 2, 8, 0, 0⟩]
    ⟨2024, 5, 3, 8, 0, 0⟩ (Or.inl rfl) (by decide)

/-- C9: for every existing habit with recognized periodicity the result is
an integer n with n at most the number of tracker events of the habit, and
n is 0 exactly when the habit has no tracker events. -/
theorem spec2proof_C9 (db : DBState) (name p : String)
    (hex : proof_habit db name = true)
    (hper : getPeriodicity db name = some p)
    (hrec : p = "daily" ∨ p = "weekly") :
    ∃ n : Nat, calculate_streak db name = PyValue.int n
      ∧ n ≤ (db.tracker.filter fun r => r.1 = name).length
      ∧ (n = 0 ↔ (db.tracker.filter fun r => r.1 = name) = []) := by
  refine ⟨streakOfDates p (getCheckOffDates db name),
    calculate_streak_eq db name p hex hper, ?_, ?_⟩
  · have hlen : (getCheckOffDates db name).length
        = (db.tracker.filter fun r => r.1 = name).length := by
      simp [getCheckOffDates, sortByTime_length]
    rw [← hlen]
    exact streakOfDates_le_length p (getCheckOffDates db name)
  · have hlen : (getCheckOffDates db name).length
        = (db.tracker.filter fun r => r.1 = name).length := by
      simp [getCheckOffDates, sortByTime_length]
    constructor
    · intro h0
      rw [← List.length_eq_zero, ← hlen]
      cases hds : getCheckOffDates db name with
      | nil => rfl
      | cons d rest =>
        rw [hds] at h0
        have := streakOfDates_pos p d rest
        omega
    · intro hemp
      have : (getCheckOffDates db name).length = 0 := by
        rw [hlen, hemp]
        rfl
      rw [List.length_eq_zero] at this
      rw [this]
      rfl

/-- C9 witness: the weekly habit with a single check-off satisfies the
bound and the emptiness characterization. -/
theorem spec2proof_C9_witness :
    ∃ n : Nat, calculate_streak dbC5b "swimming" = PyValue.int n
      ∧ n ≤ (dbC5b.tracker.filter fun r => r.1 = "swimming").length
      ∧ (n = 0 ↔ (dbC5b.tracker.filter fun r => r.1 = "swimming") = []) :=
  spec2proof_C9 dbC5b "swimming" "weekly" (by decide) (by decide) (Or.inr rfl)

/-- C4: over an empty habit table the aggregator returns the empty list
and not an error; in general it returns exactly the (name, streak) pairs
of the habits attaining the maximum streak, in table order, every returned
pair carrying that maximum; and when every habit has streak 0, every habit
is returned tied at 0. -/
theorem spec2proof_C4 (db : DBState) :
    (db.habits = [] → longest_streak_across db = some [])
    ∧ longest_streak_across db =
        some (tiePairs db (db.habits.map fun h => h.name) (maxStreakVal db))
    ∧ (∀ l, longest_streak_across db = some l → ∀ pr ∈ l, pr.2 = maxStreakVal db)
    ∧ ((∀ h ∈ db.habits, streakInt db h.name = 0) →
        longest_streak_across db =
          some ((db.habits.map fun h => h.name).map fun n => (n, 0))) := by
  have hall : ∀ n ∈ (db.habits.map fun h => h.name), proof_habit db n = true := by
    intro n hn
    rw [List.mem_map] at hn
    obtain ⟨hr, hmem, hname⟩ := hn
    rw [← hname]
    exact proof_habit_of_mem db hr hmem
  have hmain : longest_streak_across db =
      some (tiePairs db (db.habits.map fun h => h.name) (maxStreakVal db)) := by
    unfold longest_streak_across
    have h0 : tiePairs db [] 0 = [] := rfl
    rw [← h0, lsaLoop_tiePairs db (db.habits.map fun h => h.name) 0 [] hall (by simp)]
    rw [maxStreakVal_eq db]
    rfl
  refine ⟨?_, hmain, ?_, ?_⟩
  · intro hemp
    unfold longest_streak_across
    rw [hemp]
    rfl
  · intro l hl pr hpr
    rw [hmain] at hl
    rw [Option.some_inj] at hl
    rw [← hl] at hpr
    unfold tiePairs at hpr
    rw [List.mem_map] at hpr
    obtain ⟨m, _, hm⟩ := hpr
    rw [← hm]
  · intro hz
    rw [hmain]
    have hms : maxStreakVal db = 0 := by
      unfold maxStreakVal
      refine foldl_max_zero _ ?_
      intro x hx
      rw [List.mem_map] at hx
      obtain ⟨hr, hmem, hval⟩ := hx
      rw [← hval]
      exact hz hr hmem
    rw [hms]
    unfold tiePairs
    congr 1
    congr 1
    refine List.filter_eq_self.mpr ?_
    intro n hn
    rw [List.mem_map] at hn
    obtain ⟨hr, hmem, hname⟩ := hn
    simp only [decide_eq_true_eq]
    rw [← hname]
    exact hz hr hmem

/-- C4 witness: the tie scenario returns both habits at streak 3, and the
empty database returns the empty list. -/
theorem spec2proof_C4_witness :
    longest_streak_across dbC4 = some [("habit1", 3), ("habit2", 3)]
    ∧ longest_streak_across ⟨[], []⟩ = some [] := by
  constructor
  · rw [(spec2proof_C4 dbC4).2.1]
    decide
  · exact (spec2proof_C4 ⟨[], []⟩).1 rfl

/-- C8: adding a habit stores the trimmed lower-cased name as its
identity, replaces a blank description by the placeholder, and a second
add whose normalized name matches the stored one case-insensitively is
rejected as a duplicate with the database unchanged. -/
theorem spec2proof_C8 (db : DBState) (name desc p date : String)
    (hne : lowerString (trimString name) ≠ "")
    (hnodup : (db.habits.any fun h =>
        lowerString h.name = lowerString (lowerString (trimString name))) = false) :
    add_habit db name desc p date =
      ({ habits := db.habits ++
           [⟨lowerString (trimString name),
             if trimString desc = "" then "No description" else desc, p, date⟩],
         tracker := db.tracker },
       addedMsg (lowerString (trimString name)))
    ∧ (∀ name2 desc2 p2 date2 : String,
        lowerString (lowerString (trimString name2))
          = lowerString (lowerString (trimString name)) →
        lowerString (trimString name2) ≠ "" →
        add_habit (add_habit db name desc p date).1 name2 desc2 p2 date2 =
          ((add_habit db name desc p date).1,
           dupMsg (lowerString (trimString name2)))) := by
  have hstep : add_habit db name desc p date =
      ({ habits := db.habits ++
           [⟨lowerString (trimString name),
             if trimString desc = "" then "No description" else desc, p, date⟩],
         tracker := db.tracker },
       addedMsg (lowerString (trimString name))) := by
    unfold add_habit
    rw [if_neg hne]
    rw [if_neg (by rw [hnodup]; exact Bool.false_ne_true)]
  refine ⟨hstep, ?_⟩
  intro name2 desc2 p2 date2 hmatch hne2
  rw [hstep]
  dsimp only
  unfold add_habit
  rw [if_neg hne2]
  have hdup : ((db.habits ++
      [HabitRow.mk (lowerString (trimString name))
        (if trimString desc = "" then "No description" else desc) p date]).any fun h =>
      lowerString h.name = lowerString (lowerString (trimString name2))) = true := by
    rw [List.any_append]
    refine Bool.or_eq_true_iff.mpr (Or.inr ?_)
    simp only [List.any_cons, List.any_nil, Bool.or_false, decide_eq_true_eq]
    rw [hmatch]
  rw [if_pos hdup]

/-- C8 witness: adding a habit named with extra whitespace and mixed case
and a blank description stores the normalized row, and re-adding it under
a different case is rejected as a duplicate. -/
theorem spec2proof_C8_witness :
    (add_habit ⟨[], []⟩ "  Run " "   " "daily" "2024-01-01 09:00:00").1.habits =
      [⟨"run", "No description", "daily", "2024-01-01 09:00:00"⟩]
    ∧ add_habit (add_habit ⟨[], []⟩ "  Run " "   " "daily" "2024-01-01 09:00:00").1
        "RUN" "desc" "daily" "2024-02-02 09:00:00" =
      ((add_habit ⟨[], []⟩ "  Run " "   " "daily" "2024-01-01 09:00:00").1,
       dupMsg "run") := by
  have h := spec2proof_C8 ⟨[], []⟩ "  Run " "   " "daily" "2024-01-01 09:00:00"
    (by decide) (by decide)
  have h2 := h.2 "RUN" "desc" "daily" "2024-02-02 09:00:00" (by decide) (by decide)
  constructor
  · rw [h.1]
    decide
  · rw [h2]
    decide
